import Mathlib

/-!
# Verification of `reproject_celestial` (spherical-intersect reprojection)

Shallow embedding of `reproject/spherical_intersect/reproject.py`:
the flux-conserving resampling kernel (the `_method == "legacy"` loop),
the serial/parallel execution manager, the column partitioning scheme,
the `parallel` flag resolution, and the coordinate-mapping pipeline.

External collaborators (the WCS pixel/world transforms, the celestial
frame conversion, the `_compute_overlap` spherical-quadrilateral
primitive and `np.radians`) are abstract function parameters, exactly
as the source imports them as black boxes.  Real-valued data is
modelled with `ℚ`; the unguarded elementwise float division that
produces non-finite values wherever the weight is zero is modelled by
an `Option`-valued division (`none` = non-finite / undefined).
-/

namespace Reproject

/-- A destination-shaped accumulator grid, indexed `(row, column)`. -/
abbrev Grid : Type := ℤ → ℤ → ℚ

/-- The pair of accumulators built by the kernel: `array_new` (flux)
and `weights` (coverage weight). -/
structure Acc where
  flux : Grid
  weight : Grid

/-- `grid[a, b] += d`, every other entry unchanged. -/
def updAdd (g : Grid) (a b : ℤ) (d : ℚ) : Grid :=
  fun x y => if x = a ∧ y = b then g x y + d else g x y

/-- Everything the resampling kernel reads: the image shapes, the source
image values `array`, the source corners projected into destination pixel
space (`xp_inout`, `yp_inout`), the world-coordinate corner grids of both
images (`xw_in`/`yw_in` already frame-converted, `xw_out`/`yw_out`), the
degree-to-radian conversion `radians` (abstract, since `π` is irrational),
and the external overlap primitive `compute_overlap` (the first component
of `_compute_overlap`; the status flag is ignored by the source). -/
structure Params where
  ny_in : ℕ
  nx_in : ℕ
  ny_out : ℕ
  nx_out : ℕ
  array : ℕ → ℕ → ℚ
  xp_inout : ℕ → ℕ → ℚ
  yp_inout : ℕ → ℕ → ℚ
  xw_in : ℕ → ℕ → ℚ
  yw_in : ℕ → ℕ → ℚ
  xw_out : ℤ → ℤ → ℚ
  yw_out : ℤ → ℤ → ℚ
  radians : ℚ → ℚ
  compute_overlap : List ℚ → List ℚ → List ℚ → List ℚ → ℚ

/-- Python's four-argument `min`. -/
def min4 (a b c d : ℚ) : ℚ := min (min (min a b) c) d

/-- Python's four-argument `max`. -/
def max4 (a b c d : ℚ) : ℚ := max (max (max a b) c) d

/-- Python's `int()` applied to a real number: truncation toward zero
(`floor` for nonnegative arguments, `ceil` for negative ones). -/
def truncQ (q : ℚ) : ℤ := if 0 ≤ q then ⌊q⌋ else ⌈q⌉

/-- `xmin = int(min(xp_inout[j,i], xp_inout[j,i+1], xp_inout[j+1,i+1], xp_inout[j+1,i]) + 0.5)`. -/
def xminRaw (P : Params) (j i : ℕ) : ℤ :=
  truncQ (min4 (P.xp_inout j i) (P.xp_inout j (i+1))
               (P.xp_inout (j+1) (i+1)) (P.xp_inout (j+1) i) + 1/2)

/-- `xmax = int(max(...) + 0.5)`. -/
def xmaxRaw (P : Params) (j i : ℕ) : ℤ :=
  truncQ (max4 (P.xp_inout j i) (P.xp_inout j (i+1))
               (P.xp_inout (j+1) (i+1)) (P.xp_inout (j+1) i) + 1/2)

/-- `ymin = int(min(yp_inout[...]) + 0.5)`. -/
def yminRaw (P : Params) (j i : ℕ) : ℤ :=
  truncQ (min4 (P.yp_inout j i) (P.yp_inout j (i+1))
               (P.yp_inout (j+1) (i+1)) (P.yp_inout (j+1) i) + 1/2)

/-- `ymax = int(max(yp_inout[...]) + 0.5)`. -/
def ymaxRaw (P : Params) (j i : ℕ) : ℤ :=
  truncQ (max4 (P.yp_inout j i) (P.yp_inout j (i+1))
               (P.yp_inout (j+1) (i+1)) (P.yp_inout (j+1) i) + 1/2)

/-- `xmin = max(0, xmin)`. -/
def xminC (P : Params) (j i : ℕ) : ℤ := max 0 (xminRaw P j i)

/-- `xmax = min(nx_out - 1, xmax)`. -/
def xmaxC (P : Params) (j i : ℕ) : ℤ := min ((P.nx_out : ℤ) - 1) (xmaxRaw P j i)

/-- `ymin = max(0, ymin)`. -/
def yminC (P : Params) (j i : ℕ) : ℤ := max 0 (yminRaw P j i)

/-- `ymax = min(ny_out - 1, ymax)`. -/
def ymaxC (P : Params) (j i : ℕ) : ℤ := min ((P.ny_out : ℤ) - 1) (ymaxRaw P j i)

/-- `np.radians(np.array([xw[j,i], xw[j,i+1], xw[j+1,i+1], xw[j+1,i]][::-1]))`:
the four corner longitudes of source pixel `(j, i)`, reversed winding,
converted to radians. -/
def ilon (P : Params) (j i : ℕ) : List ℚ :=
  ([P.xw_in j i, P.xw_in j (i+1), P.xw_in (j+1) (i+1), P.xw_in (j+1) i].reverse).map P.radians

/-- Source-pixel corner latitudes, reversed winding, in radians. -/
def ilat (P : Params) (j i : ℕ) : List ℚ :=
  ([P.yw_in j i, P.yw_in j (i+1), P.yw_in (j+1) (i+1), P.yw_in (j+1) i].reverse).map P.radians

/-- Destination-pixel corner longitudes, reversed winding, in radians. -/
def olon (P : Params) (jj ii : ℤ) : List ℚ :=
  ([P.xw_out jj ii, P.xw_out jj (ii+1), P.xw_out (jj+1) (ii+1), P.xw_out (jj+1) ii].reverse).map P.radians

/-- Destination-pixel corner latitudes, reversed winding, in radians. -/
def olat (P : Params) (jj ii : ℤ) : List ℚ :=
  ([P.yw_out jj ii, P.yw_out jj (ii+1), P.yw_out (jj+1) (ii+1), P.yw_out (jj+1) ii].reverse).map P.radians

/-- `overlap, _ = _compute_overlap(ilon, ilat, olon, olat)`. -/
def overlapSD (P : Params) (j i : ℕ) (jj ii : ℤ) : ℚ :=
  P.compute_overlap (ilon P j i) (ilat P j i) (olon P jj ii) (olat P jj ii)

/-- `original, _ = _compute_overlap(olon, olat, olon, olat)`:
the destination quad's self-overlap (its own area). -/
def overlapDD (P : Params) (jj ii : ℤ) : ℚ :=
  P.compute_overlap (olon P jj ii) (olat P jj ii) (olon P jj ii) (olat P jj ii)

/-- The dimensionless coverage fraction `overlap / original`. -/
def fraction (P : Params) (j i : ℕ) (jj ii : ℤ) : ℚ :=
  overlapSD P j i jj ii / overlapDD P jj ii

/-- The loop body:
`array_new[jj, ii] += array[j, i] * overlap / original;`
`weights[jj, ii] += overlap / original`. -/
def pixelUpdate (P : Params) (j i : ℕ) (ii jj : ℤ) (acc : Acc) : Acc :=
  ⟨updAdd acc.flux jj ii (P.array j i * overlapSD P j i jj ii / overlapDD P jj ii),
   updAdd acc.weight jj ii (overlapSD P j i jj ii / overlapDD P jj ii)⟩

/-- The integer interval `[lo, hi]` as a list (Python `range(lo, hi+1)`). -/
def zrange (lo hi : ℤ) : List ℤ :=
  (List.range (hi + 1 - lo).toNat).map (fun k : ℕ => lo + (k : ℤ))

/-- `for jj in range(ymin, ymax+1): ...` for a fixed `ii`. -/
def loopJJ (P : Params) (j i : ℕ) (ii : ℤ) (acc : Acc) : Acc :=
  (zrange (yminC P j i) (ymaxC P j i)).foldl (fun s jj => pixelUpdate P j i ii jj s) acc

/-- `for ii in range(xmin, xmax+1): for jj in ...` for one source pixel. -/
def loopII (P : Params) (j i : ℕ) (acc : Acc) : Acc :=
  (zrange (xminC P j i) (xmaxC P j i)).foldl (fun s ii => loopJJ P j i ii s) acc

/-- `for j in range(ny_in): ...` for a fixed source column `i`. -/
def loopJ (P : Params) (i : ℕ) (acc : Acc) : Acc :=
  (List.range P.ny_in).foldl (fun s j => loopII P j i s) acc

/-- The whole `_method == "legacy"` accumulation:
`for i in range(nx_in): for j in range(ny_in): ...`, starting from
all-zero accumulators (`np.zeros(shape_out)`). -/
def legacyAccum (P : Params) : Acc :=
  (List.range P.nx_in).foldl (fun s i => loopJ P i s) ⟨fun _ _ => 0, fun _ _ => 0⟩

/-- Models the unguarded elementwise float division `array_new /= weights`:
with a finite numerator the IEEE quotient is non-finite (NaN or ±inf)
exactly when the denominator is zero, so that case is `none`. -/
def safeDiv (a b : ℚ) : Option ℚ := if b = 0 then none else some (a / b)

/-- The value returned by the legacy branch: `array_new /= weights;
return array_new, weights`. -/
def legacyReproject (P : Params) : (ℤ → ℤ → Option ℚ) × Grid :=
  (fun a b => safeDiv ((legacyAccum P).flux a b) ((legacyAccum P).weight a b),
   (legacyAccum P).weight)

/-- Destination pixel `(a, b)` lies inside the clipped bounding box of
source pixel `(j, i)`. -/
def inClipBox (P : Params) (j i : ℕ) (a b : ℤ) : Prop :=
  xminC P j i ≤ b ∧ b ≤ xmaxC P j i ∧ yminC P j i ≤ a ∧ a ≤ ymaxC P j i

instance (P : Params) (j i : ℕ) (a b : ℤ) : Decidable (inClipBox P j i a b) := by
  unfold inClipBox; infer_instance

/-- Claim-side closed form: the flux contributed to destination pixel
`(a, b)` by source column `i` — the sum over rows `j` of
`array[j, i] * fraction` over the pixels whose clipped box contains `(a, b)`. -/
def colContribF (P : Params) (i : ℕ) (a b : ℤ) : ℚ :=
  ((List.range P.ny_in).map
    (fun j => if inClipBox P j i a b then P.array j i * fraction P j i a b else 0)).sum

/-- Claim-side closed form: the coverage weight contributed to `(a, b)`
by source column `i`. -/
def colContribW (P : Params) (i : ℕ) (a b : ℤ) : ℚ :=
  ((List.range P.ny_in).map
    (fun j => if inClipBox P j i a b then fraction P j i a b else 0)).sum

/-- Claim-side closed form: total flux accumulated at `(a, b)`. -/
def totalF (P : Params) (a b : ℤ) : ℚ :=
  ((List.range P.nx_in).map (fun i => colContribF P i a b)).sum

/-- Claim-side closed form: total coverage weight accumulated at `(a, b)`. -/
def totalW (P : Params) (a b : ℤ) : ℚ :=
  ((List.range P.nx_in).map (fun i => colContribW P i a b)).sum

/-- Folding a step that adds `gf x` to the flux and `gw x` to the weight at
one fixed destination entry accumulates the sums of the per-step deltas. -/
theorem foldl_addOn {ι : Type} (F : ι → Acc → Acc) (gf gw : ι → ℚ) (a b : ℤ)
    (h : ∀ x acc, (F x acc).flux a b = acc.flux a b + gf x ∧
                  (F x acc).weight a b = acc.weight a b + gw x) :
    ∀ (l : List ι) (acc : Acc),
      (l.foldl (fun s x => F x s) acc).flux a b = acc.flux a b + (l.map gf).sum ∧
      (l.foldl (fun s x => F x s) acc).weight a b = acc.weight a b + (l.map gw).sum := by
  intro l
  induction l with
  | nil => intro acc; simp
  | cons x xs ih =>
    intro acc
    simp only [List.foldl_cons, List.map_cons, List.sum_cons]
    obtain ⟨h1, h2⟩ := ih (F x acc)
    obtain ⟨h3, h4⟩ := h x acc
    exact ⟨by rw [h1, h3]; ring, by rw [h2, h4]; ring⟩

/-- Summing an indicator supported at `a` over the shifted range
`lo, lo+1, …, lo+n-1`. -/
theorem sum_map_shiftRange_ite (n : ℕ) :
    ∀ (lo a : ℤ) (f : ℤ → ℚ),
      (((List.range n).map (fun k : ℕ => lo + (k : ℤ))).map
        (fun x => if x = a then f x else 0)).sum
      = if lo ≤ a ∧ a < lo + (n : ℤ) then f a else 0 := by
  induction n with
  | zero =>
    intro lo a f
    simp only [List.range_zero, List.map_nil, List.sum_nil, Nat.cast_zero, add_zero]
    exact (if_neg (fun h : lo ≤ a ∧ a < lo => absurd h.2 (not_lt.mpr h.1))).symm
  | succ n ih =>
    intro lo a f
    rw [List.range_succ, List.map_append, List.map_append, List.sum_append, ih]
    simp only [List.map_cons, List.map_nil, List.sum_cons, List.sum_nil, add_zero]
    by_cases hA : lo + (n : ℤ) = a
    · have h1 : ¬(lo ≤ a ∧ a < lo + (n : ℤ)) := by omega
      have h2 : lo ≤ a ∧ a < lo + ((n + 1 : ℕ) : ℤ) := by omega
      rw [if_neg h1, if_pos hA, if_pos h2, zero_add, hA]
    · rw [if_neg hA, add_zero]
      exact if_congr (by omega) rfl rfl

/-- Summing an indicator supported at `a` over `zrange lo hi`. -/
theorem sum_map_zrange_ite (lo hi a : ℤ) (f : ℤ → ℚ) :
    ((zrange lo hi).map (fun x => if x = a then f x else 0)).sum
    = if lo ≤ a ∧ a ≤ hi then f a else 0 := by
  unfold zrange
  rw [sum_map_shiftRange_ite]
  exact if_congr (by omega) rfl rfl

/-- Sum of a doubly-guarded indicator `(a = jj ∧ q)` over `zrange`. -/
theorem sum_map_zrange_pair (lo hi a : ℤ) (q : Prop) [Decidable q] (c : ℤ → ℚ) :
    ((zrange lo hi).map (fun jj => if a = jj ∧ q then c jj else 0)).sum
    = if (lo ≤ a ∧ a ≤ hi) ∧ q then c a else 0 := by
  by_cases hq : q
  · have e : (fun jj : ℤ => if a = jj ∧ q then c jj else 0)
        = (fun jj => if jj = a then c jj else 0) := by
      funext jj
      by_cases h : jj = a
      · rw [if_pos ⟨h.symm, hq⟩, if_pos h]
      · rw [if_neg (fun hc : a = jj ∧ q => h hc.1.symm), if_neg h]
    rw [e, sum_map_zrange_ite lo hi a c]
    by_cases hr : lo ≤ a ∧ a ≤ hi
    · rw [if_pos hr, if_pos ⟨hr, hq⟩]
    · rw [if_neg hr, if_neg (fun hc : (lo ≤ a ∧ a ≤ hi) ∧ q => hr hc.1)]
  · have e : (fun jj : ℤ => if a = jj ∧ q then c jj else 0) = (fun _ => (0 : ℚ)) := by
      funext jj
      exact if_neg (fun hc : a = jj ∧ q => hq hc.2)
    rw [e, if_neg (fun hc : (lo ≤ a ∧ a ≤ hi) ∧ q => hq hc.2)]
    simp

/-- Sum over `zrange` of an indicator pinned at the loop variable `= b`,
with a loop-independent value `K`. -/
theorem sum_map_zrange_const (lo hi : ℤ) (p : Prop) [Decidable p] (b : ℤ) (K : ℚ) :
    ((zrange lo hi).map (fun ii => if p ∧ b = ii then K else 0)).sum
    = if p ∧ (lo ≤ b ∧ b ≤ hi) then K else 0 := by
  by_cases hp : p
  · have e : (fun ii : ℤ => if p ∧ b = ii then K else 0)
        = (fun ii => if ii = b then K else 0) := by
      funext ii
      by_cases h : ii = b
      · rw [if_pos ⟨hp, h.symm⟩, if_pos h]
      · rw [if_neg (fun hc : p ∧ b = ii => h hc.2.symm), if_neg h]
    rw [e, sum_map_zrange_ite lo hi b (fun _ => K)]
    by_cases hr : lo ≤ b ∧ b ≤ hi
    · rw [if_pos hr, if_pos ⟨hp, hr⟩]
    · rw [if_neg hr, if_neg (fun hc : p ∧ (lo ≤ b ∧ b ≤ hi) => hr hc.2)]
  · have e : (fun ii : ℤ => if p ∧ b = ii then K else 0) = (fun _ => (0 : ℚ)) := by
      funext ii
      exact if_neg (fun hc : p ∧ b = ii => hp hc.1)
    rw [e, if_neg (fun hc : p ∧ (lo ≤ b ∧ b ≤ hi) => hp hc.1)]
    simp

/-- One step of the innermost loop, seen at a fixed destination entry. -/
theorem pixelUpdate_char (P : Params) (j i : ℕ) (ii jj a b : ℤ) (acc : Acc) :
    (pixelUpdate P j i ii jj acc).flux a b
      = acc.flux a b + (if a = jj ∧ b = ii
          then P.array j i * overlapSD P j i jj ii / overlapDD P jj ii else 0) ∧
    (pixelUpdate P j i ii jj acc).weight a b
      = acc.weight a b + (if a = jj ∧ b = ii
          then overlapSD P j i jj ii / overlapDD P jj ii else 0) := by
  unfold pixelUpdate updAdd
  constructor <;> (dsimp only; split_ifs <;> ring)

/-- The `jj` loop contributes at most once to a fixed destination entry. -/
theorem loopJJ_char (P : Params) (j i : ℕ) (ii a b : ℤ) (acc : Acc) :
    (loopJJ P j i ii acc).flux a b
      = acc.flux a b + (if (yminC P j i ≤ a ∧ a ≤ ymaxC P j i) ∧ b = ii
          then P.array j i * fraction P j i a b else 0) ∧
    (loopJJ P j i ii acc).weight a b
      = acc.weight a b + (if (yminC P j i ≤ a ∧ a ≤ ymaxC P j i) ∧ b = ii
          then fraction P j i a b else 0) := by
  unfold loopJJ
  obtain ⟨hf, hw⟩ := foldl_addOn (fun jj s => pixelUpdate P j i ii jj s)
    (fun jj => if a = jj ∧ b = ii
        then P.array j i * overlapSD P j i jj ii / overlapDD P jj ii else 0)
    (fun jj => if a = jj ∧ b = ii
        then overlapSD P j i jj ii / overlapDD P jj ii else 0)
    a b (fun jj acc => pixelUpdate_char P j i ii jj a b acc)
    (zrange (yminC P j i) (ymaxC P j i)) acc
  rw [hf, hw,
    sum_map_zrange_pair (yminC P j i) (ymaxC P j i) a (b = ii)
      (fun jj => P.array j i * overlapSD P j i jj ii / overlapDD P jj ii),
    sum_map_zrange_pair (yminC P j i) (ymaxC P j i) a (b = ii)
      (fun jj => overlapSD P j i jj ii / overlapDD P jj ii)]
  constructor
  · congr 1
    by_cases h : (yminC P j i ≤ a ∧ a ≤ ymaxC P j i) ∧ b = ii
    · rw [if_pos h, if_pos h, ← h.2]
      simp only [fraction, mul_div_assoc]
    · rw [if_neg h, if_neg h]
  · congr 1
    by_cases h : (yminC P j i ≤ a ∧ a ≤ ymaxC P j i) ∧ b = ii
    · rw [if_pos h, if_pos h, ← h.2]
      simp only [fraction]
    · rw [if_neg h, if_neg h]

/-- The `ii`/`jj` double loop of one source pixel contributes exactly one
overlap fraction to each destination entry inside its clipped box. -/
theorem loopII_char (P : Params) (j i : ℕ) (a b : ℤ) (acc : Acc) :
    (loopII P j i acc).flux a b
      = acc.flux a b + (if inClipBox P j i a b
          then P.array j i * fraction P j i a b else 0) ∧
    (loopII P j i acc).weight a b
      = acc.weight a b + (if inClipBox P j i a b then fraction P j i a b else 0) := by
  unfold loopII
  obtain ⟨hf, hw⟩ := foldl_addOn (fun ii s => loopJJ P j i ii s)
    (fun ii => if (yminC P j i ≤ a ∧ a ≤ ymaxC P j i) ∧ b = ii
        then P.array j i * fraction P j i a b else 0)
    (fun ii => if (yminC P j i ≤ a ∧ a ≤ ymaxC P j i) ∧ b = ii
        then fraction P j i a b else 0)
    a b (fun ii acc => loopJJ_char P j i ii a b acc)
    (zrange (xminC P j i) (xmaxC P j i)) acc
  rw [hf, hw,
    sum_map_zrange_const (xminC P j i) (xmaxC P j i)
      (yminC P j i ≤ a ∧ a ≤ ymaxC P j i) b (P.array j i * fraction P j i a b),
    sum_map_zrange_const (xminC P j i) (xmaxC P j i)
      (yminC P j i ≤ a ∧ a ≤ ymaxC P j i) b (fraction P j i a b)]
  have hiff : ((yminC P j i ≤ a ∧ a ≤ ymaxC P j i) ∧ (xminC P j i ≤ b ∧ b ≤ xmaxC P j i))
      ↔ inClipBox P j i a b := by
    unfold inClipBox
    tauto
  constructor
  · congr 1
    exact if_congr hiff rfl rfl
  · congr 1
    exact if_congr hiff rfl rfl

/-- The row loop of one source column adds exactly the column contribution. -/
theorem loopJ_char (P : Params) (i : ℕ) (a b : ℤ) (acc : Acc) :
    (loopJ P i acc).flux a b = acc.flux a b + colContribF P i a b ∧
    (loopJ P i acc).weight a b = acc.weight a b + colContribW P i a b := by
  unfold loopJ
  exact foldl_addOn (fun j s => loopII P j i s)
    (fun j => if inClipBox P j i a b then P.array j i * fraction P j i a b else 0)
    (fun j => if inClipBox P j i a b then fraction P j i a b else 0)
    a b (fun j acc => loopII_char P j i a b acc)
    (List.range P.ny_in) acc

/-- The full legacy accumulation equals the claim-side double sums. -/
theorem legacyAccum_char (P : Params) (a b : ℤ) :
    (legacyAccum P).flux a b = totalF P a b ∧
    (legacyAccum P).weight a b = totalW P a b := by
  unfold legacyAccum
  obtain ⟨hf, hw⟩ := foldl_addOn (fun i s => loopJ P i s)
    (fun i => colContribF P i a b) (fun i => colContribW P i a b)
    a b (fun i acc => loopJ_char P i a b acc)
    (List.range P.nx_in) ⟨fun _ _ => 0, fun _ _ => 0⟩
  rw [hf, hw]
  constructor
  · show (0 : ℚ) + _ = _
    rw [zero_add]
    rfl
  · show (0 : ℚ) + _ = _
    rw [zero_add]
    rfl

/-- C1: every destination pixel `(jj, ii)` inside the clipped bounding box
of a processed source pixel `(row, col)` receives the coverage fraction
`compute_overlap(sourceQuad, destQuad) / compute_overlap(destQuad, destQuad)`
(quads built from the four corners with reversed winding); the accumulators
receive `array[row, col] * fraction` and `fraction`; the returned image is
the elementwise quotient `fluxSum / weightSum`, undefined (non-finite,
modelled `none`) exactly where `weightSum = 0`; and `weightSum` itself is
returned unchanged as the footprint. -/
theorem legacy_kernel_spec (P : Params) (a b : ℤ) :
    (legacyReproject P).1 a b
      = (if totalW P a b = 0 then none else some (totalF P a b / totalW P a b)) ∧
    (legacyReproject P).2 a b = totalW P a b := by
  obtain ⟨hf, hw⟩ := legacyAccum_char P a b
  unfold legacyReproject safeDiv
  dsimp only
  rw [hf, hw]
  exact ⟨rfl, rfl⟩

/-- `start = int(nx_in) // nproc * i` (partition `k` of `p` over `n` columns). -/
def partStart (p n k : ℕ) : ℕ := n / p * k

/-- `end = int(nx_in) if i == nproc - 1 else int(nx_in) // nproc * (i + 1)`. -/
def partEnd (p n k : ℕ) : ℕ := if k = p - 1 then n else n / p * (k + 1)

/-- Python `range(s, e)` over naturals. -/
def nrange (s e : ℕ) : List ℕ := (List.range (e - s)).map (fun k => s + k)

/-- Modelled from the spec: `_reproject_slice_cython` (a compiled extension
module, not among the Python sources) is the Resampling Kernel over the
half-open source-column range `[s, e)`, all rows included, performing the
same per-pixel overlap accumulation as the legacy loop and returning a
destination-shaped accumulator pair built from zeros. -/
def reproject_slice (P : Params) (s e : ℕ) : Acc :=
  (nrange s e).foldl (fun acc i => loopJ P i acc) ⟨fun _ _ => 0, fun _ _ => 0⟩

/-- `serial_impl`: the kernel over the full column range `[0, nx_in)`,
then `array_new /= weights; return array_new, weights`. -/
def serial_impl (P : Params) : (ℤ → ℤ → Option ℚ) × Grid :=
  (fun a b => safeDiv ((reproject_slice P 0 P.nx_in).flux a b)
                      ((reproject_slice P 0 P.nx_in).weight a b),
   (reproject_slice P 0 P.nx_in).weight)

/-- The merge step of `parallel_impl`:
`array_new = sum([_.get()[0] for _ in results])`,
`weights = sum([_.get()[1] for _ in results])`,
elementwise over the per-partition accumulator pairs. -/
def parallelAccum (P : Params) (p : ℕ) : Acc :=
  ⟨fun a b => ((List.range p).map
      (fun k => (reproject_slice P (partStart p P.nx_in k) (partEnd p P.nx_in k)).flux a b)).sum,
   fun a b => ((List.range p).map
      (fun k => (reproject_slice P (partStart p P.nx_in k) (partEnd p P.nx_in k)).weight a b)).sum⟩

/-- `return array_new / weights, weights` at the end of `parallel_impl`. -/
def parallel_impl_result (P : Params) (p : ℕ) : (ℤ → ℤ → Option ℚ) × Grid :=
  (fun a b => safeDiv ((parallelAccum P p).flux a b) ((parallelAccum P p).weight a b),
   (parallelAccum P p).weight)

/-- List sums over `List.range` agree with `Finset.range` sums. -/
theorem list_sum_range (n : ℕ) (f : ℕ → ℚ) :
    ((List.range n).map f).sum = ∑ k ∈ Finset.range n, f k := by
  induction n with
  | zero => simp
  | succ n ih =>
    rw [List.range_succ, List.map_append, List.sum_append, Finset.sum_range_succ, ih]
    simp

/-- A slice accumulates exactly the column contributions of its range. -/
theorem reproject_slice_char (P : Params) (s e : ℕ) (a b : ℤ) :
    (reproject_slice P s e).flux a b = ∑ i ∈ Finset.Ico s e, colContribF P i a b ∧
    (reproject_slice P s e).weight a b = ∑ i ∈ Finset.Ico s e, colContribW P i a b := by
  unfold reproject_slice nrange
  obtain ⟨hf, hw⟩ := foldl_addOn (fun i acc => loopJ P i acc)
    (fun i => colContribF P i a b) (fun i => colContribW P i a b)
    a b (fun i acc => loopJ_char P i a b acc)
    ((List.range (e - s)).map (fun k => s + k)) ⟨fun _ _ => 0, fun _ _ => 0⟩
  rw [hf, hw, List.map_map, List.map_map, list_sum_range, list_sum_range]
  rw [Finset.sum_Ico_eq_sum_range, Finset.sum_Ico_eq_sum_range]
  constructor
  · show (0 : ℚ) + _ = _
    rw [zero_add]
    rfl
  · show (0 : ℚ) + _ = _
    rw [zero_add]
    rfl

/-- The per-partition interval sums telescope to the full-range sum. -/
theorem parts_sum (n p : ℕ) (hp : 1 ≤ p) (c : ℕ → ℚ) :
    ∑ k ∈ Finset.range p, ∑ i ∈ Finset.Ico (partStart p n k) (partEnd p n k), c i
    = ∑ i ∈ Finset.Ico 0 n, c i := by
  have hmono : ∀ k : ℕ, partStart p n k ≤ partStart p n (k + 1) := by
    intro k
    exact Nat.mul_le_mul (le_refl (n / p)) (by omega)
  have hlast : partStart p n (p - 1) ≤ n := by
    calc n / p * (p - 1) ≤ n / p * p := Nat.mul_le_mul (le_refl (n / p)) (by omega)
    _ ≤ n := Nat.div_mul_le_self n p
  have hpre : ∀ j, j ≤ p - 1 →
      ∑ k ∈ Finset.range j, ∑ i ∈ Finset.Ico (partStart p n k) (partEnd p n k), c i
      = ∑ i ∈ Finset.Ico 0 (partStart p n j), c i := by
    intro j
    induction j with
    | zero =>
      intro _
      simp [partStart]
    | succ j ih =>
      intro hj
      rw [Finset.sum_range_succ, ih (by omega)]
      have he : partEnd p n j = partStart p n (j + 1) := by
        unfold partEnd partStart
        rw [if_neg (by omega)]
      rw [he]
      exact Finset.sum_Ico_consecutive c (Nat.zero_le _) (hmono j)
  obtain ⟨p', rfl⟩ : ∃ p', p = p' + 1 := ⟨p - 1, by omega⟩
  rw [Finset.sum_range_succ, hpre p' (by omega)]
  have he : partEnd (p' + 1) n p' = n := by
    unfold partEnd
    rw [if_pos (by omega)]
  rw [he]
  have hs' : partStart (p' + 1) n p' ≤ n := by
    simpa using hlast
  exact Finset.sum_Ico_consecutive c (Nat.zero_le _) hs'

/-- C2: for a fixed input, the elementwise merged per-partition accumulators
for any partition count `p ≥ 1` equal the serial accumulators over the full
column range exactly (summation in `ℚ` is exact and commutative), and hence
the divided results and footprints of `parallel_impl` and `serial_impl`
coincide. -/
theorem parallel_matches_serial (P : Params) (p : ℕ) (hp : 1 ≤ p) (a b : ℤ) :
    (parallelAccum P p).flux a b = (reproject_slice P 0 P.nx_in).flux a b ∧
    (parallelAccum P p).weight a b = (reproject_slice P 0 P.nx_in).weight a b ∧
    (parallel_impl_result P p).1 a b = (serial_impl P).1 a b ∧
    (parallel_impl_result P p).2 a b = (serial_impl P).2 a b := by
  have hflux : (parallelAccum P p).flux a b = (reproject_slice P 0 P.nx_in).flux a b := by
    show ((List.range p).map
      (fun k => (reproject_slice P (partStart p P.nx_in k) (partEnd p P.nx_in k)).flux a b)).sum = _
    have e : (fun k => (reproject_slice P (partStart p P.nx_in k) (partEnd p P.nx_in k)).flux a b)
        = (fun k => ∑ i ∈ Finset.Ico (partStart p P.nx_in k) (partEnd p P.nx_in k),
            colContribF P i a b) := by
      funext k
      exact (reproject_slice_char P (partStart p P.nx_in k) (partEnd p P.nx_in k) a b).1
    rw [e, list_sum_range, parts_sum P.nx_in p hp, (reproject_slice_char P 0 P.nx_in a b).1]
  have hweight : (parallelAccum P p).weight a b = (reproject_slice P 0 P.nx_in).weight a b := by
    show ((List.range p).map
      (fun k => (reproject_slice P (partStart p P.nx_in k) (partEnd p P.nx_in k)).weight a b)).sum = _
    have e : (fun k => (reproject_slice P (partStart p P.nx_in k) (partEnd p P.nx_in k)).weight a b)
        = (fun k => ∑ i ∈ Finset.Ico (partStart p P.nx_in k) (partEnd p P.nx_in k),
            colContribW P i a b) := by
      funext k
      exact (reproject_slice_char P (partStart p P.nx_in k) (partEnd p P.nx_in k) a b).2
    rw [e, list_sum_range, parts_sum P.nx_in p hp, (reproject_slice_char P 0 P.nx_in a b).2]
  refine ⟨hflux, hweight, ?_, ?_⟩
  · show safeDiv ((parallelAccum P p).flux a b) ((parallelAccum P p).weight a b) = _
    rw [hflux, hweight]
    rfl
  · exact hweight

/-- A small concrete parameter block used to instantiate hypotheses of the
theorems on concrete inputs. -/
def sampleParams : Params where
  ny_in := 1
  nx_in := 2
  ny_out := 2
  nx_out := 2
  array := fun _ _ => 1
  xp_inout := fun _ i => (i : ℚ)
  yp_inout := fun j _ => (j : ℚ)
  xw_in := fun _ _ => 0
  yw_in := fun _ _ => 0
  xw_out := fun _ _ => 0
  yw_out := fun _ _ => 0
  radians := fun q => q
  compute_overlap := fun _ _ _ _ => 1

/-- Witness for C2 at `p = 2` on a concrete parameter block. -/
theorem parallel_matches_serial_witness :
    1 ≤ 2 ∧
    ((parallelAccum sampleParams 2).flux 0 0
        = (reproject_slice sampleParams 0 sampleParams.nx_in).flux 0 0 ∧
     (parallelAccum sampleParams 2).weight 0 0
        = (reproject_slice sampleParams 0 sampleParams.nx_in).weight 0 0 ∧
     (parallel_impl_result sampleParams 2).1 0 0 = (serial_impl sampleParams).1 0 0 ∧
     (parallel_impl_result sampleParams 2).2 0 0 = (serial_impl sampleParams).2 0 0) :=
  ⟨by decide, parallel_matches_serial sampleParams 2 (by decide) 0 0⟩

/-- C3: for any column count `n` and worker count `p ≥ 1`, the generated
partitions `[partStart p n k, partEnd p n k)` start at 0, end at `n`, are
contiguous, well-formed, of size `n / p` except the last which absorbs the
remainder (`n / p + n % p`), cover exactly `[0, n)`, and are pairwise
disjoint. -/
theorem partition_scheme_correct (n p : ℕ) (hp : 1 ≤ p) :
    partStart p n 0 = 0 ∧
    partEnd p n (p - 1) = n ∧
    (∀ k, k + 1 < p → partEnd p n k = partStart p n (k + 1)) ∧
    (∀ k, k < p → partStart p n k ≤ partEnd p n k) ∧
    (∀ k, k + 1 < p → partEnd p n k - partStart p n k = n / p) ∧
    (partEnd p n (p - 1) - partStart p n (p - 1) = n / p + n % p) ∧
    (∀ x, x < n → ∃ k, k < p ∧ partStart p n k ≤ x ∧ x < partEnd p n k) ∧
    (∀ k, k < p → ∀ x, partStart p n k ≤ x → x < partEnd p n k → x < n) ∧
    (∀ k k' x, k < p → k' < p →
      partStart p n k ≤ x → x < partEnd p n k →
      partStart p n k' ≤ x → x < partEnd p n k' → k = k') := by
  have hql : ∀ k, k ≤ p → n / p * k ≤ n := by
    intro k hk
    calc n / p * k ≤ n / p * p := Nat.mul_le_mul (le_refl (n / p)) hk
    _ ≤ n := Nat.div_mul_le_self n p
  have hend_le : ∀ k, k < p → partEnd p n k ≤ n := by
    intro k hk
    unfold partEnd
    by_cases h : k = p - 1
    · rw [if_pos h]
    · rw [if_neg h]
      exact hql (k + 1) (by omega)
  have hsep : ∀ k k', k < k' → k' < p → partEnd p n k ≤ partStart p n k' := by
    intro k k' hkk hk'
    unfold partEnd partStart
    rw [if_neg (by omega)]
    exact Nat.mul_le_mul (le_refl (n / p)) (by omega)
  refine ⟨by simp [partStart], ?_, ?_, ?_, ?_, ?_, ?_, ?_, ?_⟩
  · unfold partEnd
    rw [if_pos rfl]
  · intro k hk
    unfold partEnd partStart
    rw [if_neg (by omega)]
  · intro k hk
    unfold partEnd partStart
    by_cases h : k = p - 1
    · rw [if_pos h]
      exact hql k (by omega)
    · rw [if_neg h]
      exact Nat.mul_le_mul (le_refl (n / p)) (by omega)
  · intro k hk
    unfold partEnd partStart
    rw [if_neg (by omega)]
    generalize n / p = q
    have h1 : q * (k + 1) = q * k + q := by ring
    omega
  · unfold partEnd partStart
    rw [if_pos rfl]
    have h1 : n / p * p + n % p = n := by
      rw [Nat.mul_comm]
      exact Nat.div_add_mod n p
    have h2 : n / p * p = n / p * (p - 1) + n / p := by
      have : p = (p - 1) + 1 := by omega
      calc n / p * p = n / p * ((p - 1) + 1) := by rw [← this]
      _ = n / p * (p - 1) + n / p := by ring
    have h3 := hql (p - 1) (by omega)
    omega
  · intro x hx
    by_cases hq : n / p = 0
    · refine ⟨p - 1, by omega, ?_, ?_⟩
      · unfold partStart
        rw [hq]
        simp
      · unfold partEnd
        rw [if_pos rfl]
        exact hx
    · by_cases hk : x / (n / p) < p - 1
      · refine ⟨x / (n / p), by omega, ?_, ?_⟩
        · unfold partStart
          calc n / p * (x / (n / p)) = x / (n / p) * (n / p) := by ring
          _ ≤ x := Nat.div_mul_le_self x (n / p)
        · unfold partEnd
          rw [if_neg (by omega)]
          have h1 : n / p * (x / (n / p)) + x % (n / p) = x := Nat.div_add_mod x (n / p)
          have h2 : x % (n / p) < n / p := Nat.mod_lt x (Nat.pos_of_ne_zero hq)
          have h3 : n / p * (x / (n / p) + 1) = n / p * (x / (n / p)) + n / p := by ring
          omega
      · refine ⟨p - 1, by omega, ?_, ?_⟩
        · unfold partStart
          have h1 : n / p * (p - 1) ≤ n / p * (x / (n / p)) :=
            Nat.mul_le_mul (le_refl (n / p)) (by omega)
          have h2 : n / p * (x / (n / p)) ≤ x := by
            calc n / p * (x / (n / p)) = x / (n / p) * (n / p) := by ring
            _ ≤ x := Nat.div_mul_le_self x (n / p)
          omega
        · unfold partEnd
          rw [if_pos rfl]
          exact hx
  · intro k hk x _ hxe
    exact lt_of_lt_of_le hxe (hend_le k hk)
  · intro k k' x hk hk' hs1 he1 hs2 he2
    rcases Nat.lt_trichotomy k k' with h | h | h
    · exact absurd (lt_of_lt_of_le he1 (hsep k k' h hk')) (by omega)
    · exact h
    · exact absurd (lt_of_lt_of_le he2 (hsep k' k h hk)) (by omega)

/-- Witness for C3 at `n = 10`, `p = 3`. -/
theorem partition_scheme_correct_witness :
    1 ≤ 3 ∧
    (partStart 3 10 0 = 0 ∧
     partEnd 3 10 (3 - 1) = 10 ∧
     (∀ k, k + 1 < 3 → partEnd 3 10 k = partStart 3 10 (k + 1)) ∧
     (∀ k, k < 3 → partStart 3 10 k ≤ partEnd 3 10 k) ∧
     (∀ k, k + 1 < 3 → partEnd 3 10 k - partStart 3 10 k = 10 / 3) ∧
     (partEnd 3 10 (3 - 1) - partStart 3 10 (3 - 1) = 10 / 3 + 10 % 3) ∧
     (∀ x, x < 10 → ∃ k, k < 3 ∧ partStart 3 10 k ≤ x ∧ x < partEnd 3 10 k) ∧
     (∀ k, k < 3 → ∀ x, partStart 3 10 k ≤ x → x < partEnd 3 10 k → x < 10) ∧
     (∀ k k' x, k < 3 → k' < 3 →
       partStart 3 10 k ≤ x → x < partEnd 3 10 k →
       partStart 3 10 k' ≤ x → x < partEnd 3 10 k' → k = k')) :=
  ⟨by decide, partition_scheme_correct 10 3 (by decide)⟩

/-!
## Execution-manager control flow

`reproject_celestial`'s dispatch, error handling and fallback logic,
embedded as a function from the `parallel` flag and an environment
(shape validity, method selector, CPU count, and the outcomes of the
worker pool and of `serial_impl`, which are environmental in the model)
to an outcome plus the ordered list of performed effects.
-/

/-- A Python exception from `reproject_celestial`. -/
inductive PyErr where
  | typeError : PyErr
  | valueError : String → PyErr
  | notImplementedError : PyErr
  | keyboardInterrupt : PyErr
  | exc : String → PyErr
deriving DecidableEq

/-- A Python value passed as the `parallel` argument; `type()` comparison
is exact, so a `bool` is never an `int` here even though Python's `bool`
subclasses `int`. -/
inductive PyVal where
  | pybool : Bool → PyVal
  | pyint : ℤ → PyVal
  | pyother : PyVal
deriving DecidableEq

/-- Lines 56–67: the `parallel` flag checks.  `none` = automatically
selected process count (`nproc = None`), `some n` = pinned count. -/
def resolve_nproc : PyVal → Except PyErr (Option ℤ)
  | PyVal.pyother => Except.error PyErr.typeError
  | PyVal.pyint n =>
      if n ≤ 0 then
        Except.error (PyErr.valueError "The number of processors to use must be strictly positive")
      else Except.ok (some n)
  | PyVal.pybool b => Except.ok (if b then none else some 1)

/-- Observable computation steps and effects, in program order. -/
inductive Ev where
  | astypeFloat : Ev
  | cornerGridIn : Ev
  | pix2worldIn : Ev
  | cornerGridOut : Ev
  | pix2worldOut : Ev
  | convertCoords : Ev
  | world2pixInout : Ev
  | legacyRun : Ev
  | serialRun : Ev
  | warnLogged : Ev
  | poolCreate : ℕ → Ev
  | poolTerminate : Ev
  | poolJoin : Ev
  | poolClose : Ev
deriving DecidableEq

/-- Which implementation produced the value returned to the caller. -/
inductive RunTag where
  | legacy : RunTag
  | serial : RunTag
  | parallel : RunTag
deriving DecidableEq

/-- The environment of one call: source dimensionality, `_method`
selector, `cpu_count()`, the outcome of the parallel try-block given the
effective process count, and the outcome of `serial_impl`. -/
structure Cfg where
  naxis : ℕ
  method : String
  cpu_count : ℕ
  parInner : ℕ → Except PyErr Unit
  serialOutcome : Except PyErr Unit

/-- `nproc = cpu_count()` when the resolved count is `None`. -/
def effProcs (cfg : Cfg) : Option ℤ → ℕ
  | none => cfg.cpu_count
  | some k => k.toNat

/-- Lines 180–221, `parallel_impl`: create the pool, run the try-block;
on `KeyboardInterrupt` terminate and join the pool and re-raise (the
`finally` then sees `pool = None`); otherwise the `finally` closes and
joins the pool, and a non-interrupt exception propagates to the caller. -/
def parallel_impl (cfg : Cfg) (np : Option ℤ) : Except PyErr RunTag × List Ev :=
  match cfg.parInner (effProcs cfg np) with
  | Except.ok _ =>
      (Except.ok RunTag.parallel,
       [Ev.poolCreate (effProcs cfg np), Ev.poolClose, Ev.poolJoin])
  | Except.error e =>
      if e = PyErr.keyboardInterrupt then
        (Except.error e, [Ev.poolCreate (effProcs cfg np), Ev.poolTerminate, Ev.poolJoin])
      else
        (Except.error e, [Ev.poolCreate (effProcs cfg np), Ev.poolClose, Ev.poolJoin])

/-- The value of a `serial_impl()` call: its own outcome tagged serial. -/
def serialResult (cfg : Cfg) : Except PyErr RunTag :=
  match cfg.serialOutcome with
  | Except.ok _ => Except.ok RunTag.serial
  | Except.error e => Except.error e

/-- `_method == "c" and nproc == 1`. -/
def serialSelected (m : String) (np : Option ℤ) : Bool :=
  decide (m = "c") && decide (np = some 1)

/-- `_method == "c" and (nproc is None or nproc > 1)`. -/
def parallelSelected (m : String) (np : Option ℤ) : Bool :=
  decide (m = "c") && (match np with
    | none => true
    | some k => decide (1 < k))

/-- The coordinate-mapping steps of lines 83–111, always performed (in
this order) once the flag and dimensionality checks pass. -/
def mappingEvs : List Ev :=
  [Ev.cornerGridIn, Ev.pix2worldIn, Ev.cornerGridOut, Ev.pix2worldOut,
   Ev.convertCoords, Ev.world2pixInout]

/-- The whole control flow of `reproject_celestial`: flag checks, float
conversion, dimensionality check, coordinate mapping, then dispatch on
`_method`/`nproc`, with the serial fallback on non-interrupt parallel
failure (two `logger.warn` calls, then `serial_impl()`), and the final
`raise ValueError('unrecognized method ...')`. -/
def reproject_control (flag : PyVal) (cfg : Cfg) : Except PyErr RunTag × List Ev :=
  match resolve_nproc flag with
  | Except.error e => (Except.error e, [])
  | Except.ok np =>
    if cfg.naxis ≠ 2 then
      (Except.error PyErr.notImplementedError, [Ev.astypeFloat])
    else if cfg.method = "legacy" then
      (Except.ok RunTag.legacy, Ev.astypeFloat :: mappingEvs ++ [Ev.legacyRun])
    else if serialSelected cfg.method np then
      (serialResult cfg, Ev.astypeFloat :: mappingEvs ++ [Ev.serialRun])
    else if parallelSelected cfg.method np then
      match parallel_impl cfg np with
      | (Except.ok t, pevs) => (Except.ok t, Ev.astypeFloat :: mappingEvs ++ pevs)
      | (Except.error e, pevs) =>
          if e = PyErr.keyboardInterrupt then
            (Except.error e, Ev.astypeFloat :: mappingEvs ++ pevs)
          else
            (serialResult cfg,
             Ev.astypeFloat :: mappingEvs ++ pevs ++ [Ev.warnLogged, Ev.warnLogged, Ev.serialRun])
    else
      (Except.error (PyErr.valueError "unrecognized method"), Ev.astypeFloat :: mappingEvs)

/-- If the parallel branch is selected, the serial branch is not. -/
theorem serial_not_selected (np : Option ℤ) (hp : parallelSelected "c" np = true) :
    serialSelected "c" np = false := by
  cases np with
  | none => decide
  | some k =>
    have hk : 1 < k := by
      have := hp
      unfold parallelSelected at this
      simpa using this
    unfold serialSelected
    simp only [Bool.and_eq_false_iff, decide_eq_false_iff_not, Option.some.injEq]
    right
    omega

/-- Under parallel selection, the control flow reduces to the parallel
branch with its `except`/fallback wrapper. -/
theorem control_parallel_case (cfg : Cfg) (flag : PyVal) (np : Option ℤ)
    (h2 : cfg.naxis = 2) (hc : cfg.method = "c")
    (hr : resolve_nproc flag = Except.ok np)
    (hp : parallelSelected cfg.method np = true) :
    reproject_control flag cfg
      = (match parallel_impl cfg np with
        | (Except.ok t, pevs) => (Except.ok t, Ev.astypeFloat :: mappingEvs ++ pevs)
        | (Except.error e, pevs) =>
            if e = PyErr.keyboardInterrupt then
              (Except.error e, Ev.astypeFloat :: mappingEvs ++ pevs)
            else
              (serialResult cfg,
               Ev.astypeFloat :: mappingEvs ++ pevs
                 ++ [Ev.warnLogged, Ev.warnLogged, Ev.serialRun])) := by
  have hp' : parallelSelected "c" np = true := by rw [← hc]; exact hp
  unfold reproject_control
  rw [hr]
  simp [h2, hc, serial_not_selected np hp', hp']

/-- The pool is always created (with the effective process count) when
`parallel_impl` runs. -/
theorem poolCreate_mem_parallel_impl (cfg : Cfg) (np : Option ℤ) :
    Ev.poolCreate (effProcs cfg np) ∈ (parallel_impl cfg np).2 := by
  unfold parallel_impl
  cases h : cfg.parInner (effProcs cfg np) with
  | ok _ => simp
  | error e =>
    by_cases he : e = PyErr.keyboardInterrupt <;> simp [he]

/-- Under parallel selection the pool-creation effect appears in the trace. -/
theorem poolCreate_mem_control (cfg : Cfg) (flag : PyVal) (np : Option ℤ)
    (h2 : cfg.naxis = 2) (hc : cfg.method = "c")
    (hr : resolve_nproc flag = Except.ok np)
    (hp : parallelSelected cfg.method np = true) :
    Ev.poolCreate (effProcs cfg np) ∈ (reproject_control flag cfg).2 := by
  rw [control_parallel_case cfg flag np h2 hc hr hp]
  rcases hpar : parallel_impl cfg np with ⟨r, pevs⟩
  have hmem : Ev.poolCreate (effProcs cfg np) ∈ pevs := by
    have h := poolCreate_mem_parallel_impl cfg np
    rw [hpar] at h
    exact h
  cases r with
  | ok t => simp [hmem]
  | error e =>
    by_cases he : e = PyErr.keyboardInterrupt <;> simp [he, hmem]

/-- C5: if parallel execution is selected and the parallel try-block fails
with anything other than a `KeyboardInterrupt`, the call logs warnings,
re-invokes `serial_impl` on the same request and returns its result; no
error is surfaced unless the serial fallback itself fails, in which case
that error propagates. -/
theorem parallel_failure_fallback (cfg : Cfg) (flag : PyVal) (np : Option ℤ) (e0 : PyErr)
    (h2 : cfg.naxis = 2) (hc : cfg.method = "c")
    (hr : resolve_nproc flag = Except.ok np)
    (hp : parallelSelected cfg.method np = true)
    (hfail : cfg.parInner (effProcs cfg np) = Except.error e0)
    (hki : e0 ≠ PyErr.keyboardInterrupt) :
    (reproject_control flag cfg).1 = serialResult cfg ∧
    Ev.warnLogged ∈ (reproject_control flag cfg).2 ∧
    Ev.serialRun ∈ (reproject_control flag cfg).2 ∧
    (cfg.serialOutcome = Except.ok () →
      (reproject_control flag cfg).1 = Except.ok RunTag.serial) ∧
    (∀ e2, cfg.serialOutcome = Except.error e2 →
      (reproject_control flag cfg).1 = Except.error e2) := by
  have hrun : reproject_control flag cfg
      = (serialResult cfg,
         Ev.astypeFloat :: mappingEvs
           ++ [Ev.poolCreate (effProcs cfg np), Ev.poolClose, Ev.poolJoin]
           ++ [Ev.warnLogged, Ev.warnLogged, Ev.serialRun]) := by
    rw [control_parallel_case cfg flag np h2 hc hr hp]
    unfold parallel_impl
    rw [hfail]
    simp [hki]
  rw [hrun]
  refine ⟨rfl, by simp [mappingEvs], by simp [mappingEvs], ?_, ?_⟩
  · intro h
    unfold serialResult
    rw [h]
  · intro e2 h
    unfold serialResult
    rw [h]

/-- Witness for C5: a concrete worker failure falls back to serial. -/
theorem parallel_failure_fallback_witness :
    ((⟨2, "c", 4, fun _ => Except.error (PyErr.exc "boom"), Except.ok ()⟩ : Cfg).naxis = 2 ∧
     (⟨2, "c", 4, fun _ => Except.error (PyErr.exc "boom"), Except.ok ()⟩ : Cfg).method = "c") ∧
    ((reproject_control (PyVal.pybool true)
        ⟨2, "c", 4, fun _ => Except.error (PyErr.exc "boom"), Except.ok ()⟩).1
      = serialResult ⟨2, "c", 4, fun _ => Except.error (PyErr.exc "boom"), Except.ok ()⟩ ∧
     Ev.warnLogged ∈ (reproject_control (PyVal.pybool true)
        ⟨2, "c", 4, fun _ => Except.error (PyErr.exc "boom"), Except.ok ()⟩).2 ∧
     Ev.serialRun ∈ (reproject_control (PyVal.pybool true)
        ⟨2, "c", 4, fun _ => Except.error (PyErr.exc "boom"), Except.ok ()⟩).2) := by
  refine ⟨⟨rfl, rfl⟩, ?_⟩
  have h := parallel_failure_fallback
    ⟨2, "c", 4, fun _ => Except.error (PyErr.exc "boom"), Except.ok ()⟩
    (PyVal.pybool true) none (PyErr.exc "boom")
    rfl rfl rfl rfl rfl (by decide)
  exact ⟨h.1, h.2.1, h.2.2.1⟩

/-- C6: if a `KeyboardInterrupt` arrives during parallel execution, the
pool is terminated and then joined before the interrupt is re-raised; the
interrupt is never converted into a serial fallback and the call never
returns a result. -/
theorem cancellation_cleanup (cfg : Cfg) (flag : PyVal) (np : Option ℤ)
    (h2 : cfg.naxis = 2) (hc : cfg.method = "c")
    (hr : resolve_nproc flag = Except.ok np)
    (hp : parallelSelected cfg.method np = true)
    (hki : cfg.parInner (effProcs cfg np) = Except.error PyErr.keyboardInterrupt) :
    reproject_control flag cfg
      = (Except.error PyErr.keyboardInterrupt,
         Ev.astypeFloat :: mappingEvs
           ++ [Ev.poolCreate (effProcs cfg np), Ev.poolTerminate, Ev.poolJoin]) ∧
    Ev.serialRun ∉ (reproject_control flag cfg).2 ∧
    (∀ t, (reproject_control flag cfg).1 ≠ Except.ok t) := by
  have hrun : reproject_control flag cfg
      = (Except.error PyErr.keyboardInterrupt,
         Ev.astypeFloat :: mappingEvs
           ++ [Ev.poolCreate (effProcs cfg np), Ev.poolTerminate, Ev.poolJoin]) := by
    rw [control_parallel_case cfg flag np h2 hc hr hp]
    unfold parallel_impl
    rw [hki]
    simp
  rw [hrun]
  refine ⟨rfl, by simp [mappingEvs], ?_⟩
  intro t h
  exact Except.noConfusion h

/-- Witness for C6: a concrete interrupt terminates the pool and re-raises. -/
theorem cancellation_cleanup_witness :
    (reproject_control (PyVal.pyint 3)
        ⟨2, "c", 4, fun _ => Except.error PyErr.keyboardInterrupt, Except.ok ()⟩
      = (Except.error PyErr.keyboardInterrupt,
         Ev.astypeFloat :: mappingEvs ++ [Ev.poolCreate 3, Ev.poolTerminate, Ev.poolJoin]) ∧
     Ev.serialRun ∉ (reproject_control (PyVal.pyint 3)
        ⟨2, "c", 4, fun _ => Except.error PyErr.keyboardInterrupt, Except.ok ()⟩).2 ∧
     (∀ t, (reproject_control (PyVal.pyint 3)
        ⟨2, "c", 4, fun _ => Except.error PyErr.keyboardInterrupt, Except.ok ()⟩).1
        ≠ Except.ok t)) :=
  cancellation_cleanup
    ⟨2, "c", 4, fun _ => Except.error PyErr.keyboardInterrupt, Except.ok ()⟩
    (PyVal.pyint 3) (some 3) rfl rfl rfl (by decide) rfl

/-- C7: `parallel` values that are neither `bool` nor `int` raise a
`TypeError`; integers `≤ 0` raise a `ValueError` before any work; `True`
resolves to the automatically determined CPU count at dispatch; `False`
resolves to serial execution with one unit; and a strictly positive
integer `k` pins the worker count to exactly `k` — the resolution yields
`some k` for every `k > 0`; `k = 1` dispatches to the serial
implementation (one execution unit, no pool is created), and `k = m > 1`
creates a pool of exactly `m` processes. -/
theorem parallel_flag_resolution (cfg : Cfg) (n m : ℤ)
    (h2 : cfg.naxis = 2) (hc : cfg.method = "c") (hn : n ≤ 0) (hm : 1 < m) :
    reproject_control PyVal.pyother cfg = (Except.error PyErr.typeError, []) ∧
    reproject_control (PyVal.pyint n) cfg
      = (Except.error
          (PyErr.valueError "The number of processors to use must be strictly positive"), []) ∧
    resolve_nproc (PyVal.pybool true) = Except.ok none ∧
    Ev.poolCreate cfg.cpu_count ∈ (reproject_control (PyVal.pybool true) cfg).2 ∧
    resolve_nproc (PyVal.pybool false) = Except.ok (some 1) ∧
    (reproject_control (PyVal.pybool false) cfg).1 = serialResult cfg ∧
    (∀ k : ℤ, 0 < k → resolve_nproc (PyVal.pyint k) = Except.ok (some k)) ∧
    resolve_nproc (PyVal.pyint 1) = Except.ok (some 1) ∧
    reproject_control (PyVal.pyint 1) cfg
      = (serialResult cfg, Ev.astypeFloat :: mappingEvs ++ [Ev.serialRun]) ∧
    (∀ nn, Ev.poolCreate nn ∉ (reproject_control (PyVal.pyint 1) cfg).2) ∧
    resolve_nproc (PyVal.pyint m) = Except.ok (some m) ∧
    Ev.poolCreate m.toNat ∈ (reproject_control (PyVal.pyint m) cfg).2 := by
  have hrm : resolve_nproc (PyVal.pyint m) = Except.ok (some m) := by
    simp only [resolve_nproc]
    rw [if_neg (by omega)]
  have hpm : parallelSelected cfg.method (some m) = true := by
    rw [hc]
    unfold parallelSelected
    simp [hm]
  have hr1 : resolve_nproc (PyVal.pyint 1) = Except.ok (some 1) := rfl
  have hc1 : reproject_control (PyVal.pyint 1) cfg
      = (serialResult cfg, Ev.astypeFloat :: mappingEvs ++ [Ev.serialRun]) := by
    unfold reproject_control
    rw [hr1]
    simp [h2, hc, serialSelected]
  refine ⟨rfl, ?_, rfl, ?_, rfl, ?_, ?_, hr1, hc1, ?_, hrm, ?_⟩
  · have hrn : resolve_nproc (PyVal.pyint n)
        = Except.error
            (PyErr.valueError "The number of processors to use must be strictly positive") := by
      simp only [resolve_nproc]
      rw [if_pos hn]
    unfold reproject_control
    rw [hrn]
  · exact poolCreate_mem_control cfg (PyVal.pybool true) none h2 hc rfl (by rw [hc]; decide)
  · have hrf : resolve_nproc (PyVal.pybool false) = Except.ok (some 1) := rfl
    unfold reproject_control
    rw [hrf]
    simp [h2, hc, serialSelected]
  · intro k hk
    simp only [resolve_nproc]
    rw [if_neg (by omega)]
  · intro nn
    rw [hc1]
    simp [mappingEvs]
  · have h := poolCreate_mem_control cfg (PyVal.pyint m) (some m) h2 hc hrm hpm
    simpa using h

/-- Witness for C7 on a concrete configuration and concrete flags. -/
theorem parallel_flag_resolution_witness :
    ((⟨2, "c", 4, fun _ => Except.ok (), Except.ok ()⟩ : Cfg).naxis = 2 ∧
     (⟨2, "c", 4, fun _ => Except.ok (), Except.ok ()⟩ : Cfg).method = "c" ∧
     (-3 : ℤ) ≤ 0 ∧ (1 : ℤ) < 5) ∧
    (reproject_control PyVal.pyother ⟨2, "c", 4, fun _ => Except.ok (), Except.ok ()⟩
      = (Except.error PyErr.typeError, []) ∧
     reproject_control (PyVal.pyint (-3)) ⟨2, "c", 4, fun _ => Except.ok (), Except.ok ()⟩
      = (Except.error
          (PyErr.valueError "The number of processors to use must be strictly positive"), []) ∧
     resolve_nproc (PyVal.pybool true) = Except.ok none ∧
     Ev.poolCreate 4 ∈ (reproject_control (PyVal.pybool true)
        ⟨2, "c", 4, fun _ => Except.ok (), Except.ok ()⟩).2 ∧
     resolve_nproc (PyVal.pybool false) = Except.ok (some 1) ∧
     (reproject_control (PyVal.pybool false)
        ⟨2, "c", 4, fun _ => Except.ok (), Except.ok ()⟩).1
       = serialResult ⟨2, "c", 4, fun _ => Except.ok (), Except.ok ()⟩ ∧
     (∀ k : ℤ, 0 < k → resolve_nproc (PyVal.pyint k) = Except.ok (some k)) ∧
     resolve_nproc (PyVal.pyint 1) = Except.ok (some 1) ∧
     reproject_control (PyVal.pyint 1) ⟨2, "c", 4, fun _ => Except.ok (), Except.ok ()⟩
       = (serialResult ⟨2, "c", 4, fun _ => Except.ok (), Except.ok ()⟩,
          Ev.astypeFloat :: mappingEvs ++ [Ev.serialRun]) ∧
     (∀ nn, Ev.poolCreate nn ∉ (reproject_control (PyVal.pyint 1)
        ⟨2, "c", 4, fun _ => Except.ok (), Except.ok ()⟩).2) ∧
     resolve_nproc (PyVal.pyint 5) = Except.ok (some 5) ∧
     Ev.poolCreate (5 : ℤ).toNat ∈ (reproject_control (PyVal.pyint 5)
        ⟨2, "c", 4, fun _ => Except.ok (), Except.ok ()⟩).2) :=
  ⟨⟨rfl, rfl, by decide, by decide⟩,
   parallel_flag_resolution ⟨2, "c", 4, fun _ => Except.ok (), Except.ok ()⟩
     (-3) 5 rfl rfl (by decide) (by decide)⟩

/-- C10: `type()` comparison is exact, so booleans never reach the integer
positivity check: `False` resolves to `nproc = 1` (no `ValueError` even
though `False == 0` in Python) and runs the serial path, while `True`
resolves to the automatic process count (`None`, then `cpu_count()`), not
to the integer 1. -/
theorem bool_flag_exact_type (cfg : Cfg) (h2 : cfg.naxis = 2) (hc : cfg.method = "c")
    (hs : cfg.serialOutcome = Except.ok ()) :
    resolve_nproc (PyVal.pybool false) = Except.ok (some 1) ∧
    reproject_control (PyVal.pybool false) cfg
      = (Except.ok RunTag.serial, Ev.astypeFloat :: mappingEvs ++ [Ev.serialRun]) ∧
    resolve_nproc (PyVal.pybool true) = Except.ok none ∧
    effProcs cfg none = cfg.cpu_count ∧
    Ev.poolCreate cfg.cpu_count ∈ (reproject_control (PyVal.pybool true) cfg).2 := by
  refine ⟨rfl, ?_, rfl, rfl, ?_⟩
  · unfold reproject_control resolve_nproc serialSelected serialResult
    rw [hs]
    simp [h2, hc]
  · exact poolCreate_mem_control cfg (PyVal.pybool true) none h2 hc rfl (by rw [hc]; decide)

/-- Witness for C10 on a concrete configuration. -/
theorem bool_flag_exact_type_witness :
    (resolve_nproc (PyVal.pybool false) = Except.ok (some 1) ∧
     reproject_control (PyVal.pybool false) ⟨2, "c", 2, fun _ => Except.ok (), Except.ok ()⟩
      = (Except.ok RunTag.serial, Ev.astypeFloat :: mappingEvs ++ [Ev.serialRun]) ∧
     resolve_nproc (PyVal.pybool true) = Except.ok none ∧
     effProcs ⟨2, "c", 2, fun _ => Except.ok (), Except.ok ()⟩ none
       = (⟨2, "c", 2, fun _ => Except.ok (), Except.ok ()⟩ : Cfg).cpu_count ∧
     Ev.poolCreate (⟨2, "c", 2, fun _ => Except.ok (), Except.ok ()⟩ : Cfg).cpu_count
       ∈ (reproject_control (PyVal.pybool true)
            ⟨2, "c", 2, fun _ => Except.ok (), Except.ok ()⟩).2) :=
  bool_flag_exact_type ⟨2, "c", 2, fun _ => Except.ok (), Except.ok ()⟩ rfl rfl rfl

/-- An environment whose `_method` selector is unrecognized. -/
def cfgUnknownMethod : Cfg where
  naxis := 2
  method := "x"
  cpu_count := 4
  parInner := fun _ => Except.ok ()
  serialOutcome := Except.ok ()

/-- An environment with a 3-dimensional input WCS. -/
def cfgBadAxis : Cfg where
  naxis := 3
  method := "c"
  cpu_count := 4
  parInner := fun _ => Except.ok ()
  serialOutcome := Except.ok ()

/-- C8 counterexample: with an unrecognized `_method` the `ValueError` is
raised only at the very end, after the corner grids have been built and all
coordinate transforms performed — not "before any computation" as claimed. -/
theorem config_error_after_mapping_cx :
    (reproject_control (PyVal.pyint 2) cfgUnknownMethod).1
      = Except.error (PyErr.valueError "unrecognized method") ∧
    Ev.cornerGridIn ∈ (reproject_control (PyVal.pyint 2) cfgUnknownMethod).2 ∧
    Ev.pix2worldIn ∈ (reproject_control (PyVal.pyint 2) cfgUnknownMethod).2 ∧
    Ev.convertCoords ∈ (reproject_control (PyVal.pyint 2) cfgUnknownMethod).2 ∧
    Ev.world2pixInout ∈ (reproject_control (PyVal.pyint 2) cfgUnknownMethod).2 := by
  refine ⟨rfl, ?_, ?_, ?_, ?_⟩ <;> simp [reproject_control, resolve_nproc, cfgUnknownMethod,
    serialSelected, parallelSelected, mappingEvs]

/-- C8 (amended): the concurrency-flag errors are raised before any
computation; the dimensionality error is raised before any corner-grid
construction or coordinate transform (though after the input array's
float conversion); and the unrecognized-method error is raised only after
the full coordinate mapping has been computed, with no resampling work
performed and no retry of any error. -/
theorem config_error_timing
    (flagBad : PyVal) (e : PyErr) (hbad : resolve_nproc flagBad = Except.error e)
    (cfgA : Cfg) (flagOk : PyVal) (np : Option ℤ)
    (hok : resolve_nproc flagOk = Except.ok np)
    (hnaA : cfgA.naxis ≠ 2)
    (cfgB : Cfg) (hB2 : cfgB.naxis = 2)
    (hBl : cfgB.method ≠ "legacy") (hBc : cfgB.method ≠ "c") :
    (∀ cfg : Cfg, reproject_control flagBad cfg = (Except.error e, [])) ∧
    reproject_control flagOk cfgA = (Except.error PyErr.notImplementedError, [Ev.astypeFloat]) ∧
    reproject_control flagOk cfgB
      = (Except.error (PyErr.valueError "unrecognized method"), Ev.astypeFloat :: mappingEvs) ∧
    Ev.serialRun ∉ (reproject_control flagOk cfgB).2 ∧
    Ev.legacyRun ∉ (reproject_control flagOk cfgB).2 ∧
    (∀ nn, Ev.poolCreate nn ∉ (reproject_control flagOk cfgB).2) := by
  have hB : reproject_control flagOk cfgB
      = (Except.error (PyErr.valueError "unrecognized method"), Ev.astypeFloat :: mappingEvs) := by
    unfold reproject_control
    rw [hok]
    simp [hB2, hBl, hBc, serialSelected, parallelSelected]
  refine ⟨?_, ?_, hB, ?_, ?_, ?_⟩
  · intro cfg
    unfold reproject_control
    rw [hbad]
  · unfold reproject_control
    rw [hok]
    simp [hnaA]
  · rw [hB]
    simp [mappingEvs]
  · rw [hB]
    simp [mappingEvs]
  · intro nn
    rw [hB]
    simp [mappingEvs]

/-- Witness for the amended C8 on concrete flags and environments. -/
theorem config_error_timing_witness :
    (resolve_nproc PyVal.pyother = Except.error PyErr.typeError ∧
     resolve_nproc (PyVal.pyint 2) = Except.ok (some 2) ∧
     cfgBadAxis.naxis ≠ 2 ∧ cfgUnknownMethod.naxis = 2 ∧
     cfgUnknownMethod.method ≠ "legacy" ∧ cfgUnknownMethod.method ≠ "c") ∧
    ((∀ cfg : Cfg, reproject_control PyVal.pyother cfg = (Except.error PyErr.typeError, [])) ∧
     reproject_control (PyVal.pyint 2) cfgBadAxis
       = (Except.error PyErr.notImplementedError, [Ev.astypeFloat]) ∧
     reproject_control (PyVal.pyint 2) cfgUnknownMethod
       = (Except.error (PyErr.valueError "unrecognized method"), Ev.astypeFloat :: mappingEvs) ∧
     Ev.serialRun ∉ (reproject_control (PyVal.pyint 2) cfgUnknownMethod).2 ∧
     Ev.legacyRun ∉ (reproject_control (PyVal.pyint 2) cfgUnknownMethod).2 ∧
     (∀ nn, Ev.poolCreate nn ∉ (reproject_control (PyVal.pyint 2) cfgUnknownMethod).2)) :=
  ⟨⟨rfl, rfl, by decide, rfl, by decide, by decide⟩,
   config_error_timing PyVal.pyother PyErr.typeError rfl
     cfgBadAxis (PyVal.pyint 2) (some 2) rfl (by decide)
     cfgUnknownMethod rfl (by decide) (by decide)⟩

/-!
## Coordinate mapper (lines 83–111)

The WCS transforms and the frame conversion are abstract collaborators;
`wcs_pix2world`/`wcs_world2pix` are vectorized in the source, so they are
modelled pointwise on coordinate pairs.
-/

/-- An abstract WCS: pixel→world and world→pixel transforms. -/
structure Wcs where
  pix2world : ℚ → ℚ → ℚ × ℚ
  world2pix : ℚ → ℚ → ℚ × ℚ

/-- The two projections and the frame conversion
`convert_world_coordinates(·, ·, wcs_in, wcs_out)`. -/
structure Frames where
  wcs_in : Wcs
  wcs_out : Wcs
  convertW : ℚ → ℚ → ℚ × ℚ

/-- `x = np.arange(nx + 1.) - 0.5; xp, yp = np.meshgrid(x, y)`: the corner
grid has `ny + 1` rows and `nx + 1` columns; entry `(j, i)` holds x-value
`i - 0.5`. -/
def xp_grid (ny nx : ℕ) : Fin (ny + 1) → Fin (nx + 1) → ℚ := fun _ i => (i : ℚ) - 1/2

/-- Corner-grid y-values: entry `(j, i)` holds `j - 0.5`. -/
def yp_grid (ny nx : ℕ) : Fin (ny + 1) → Fin (nx + 1) → ℚ := fun j _ => (j : ℚ) - 1/2

/-- `xw_in, yw_in = wcs_in.wcs_pix2world(xp_in, yp_in, 0)`. -/
def w_in (F : Frames) (ny nx : ℕ) (j : Fin (ny + 1)) (i : Fin (nx + 1)) : ℚ × ℚ :=
  F.wcs_in.pix2world (xp_grid ny nx j i) (yp_grid ny nx j i)

/-- `xw_out, yw_out = wcs_out.wcs_pix2world(xp_out, yp_out, 0)`, built
identically for the destination shape. -/
def w_out (F : Frames) (ny nx : ℕ) (j : Fin (ny + 1)) (i : Fin (nx + 1)) : ℚ × ℚ :=
  F.wcs_out.pix2world (xp_grid ny nx j i) (yp_grid ny nx j i)

/-- `xw_in, yw_in = convert_world_coordinates(xw_in, yw_in, wcs_in, wcs_out)`. -/
def w_in_conv (F : Frames) (ny nx : ℕ) (j : Fin (ny + 1)) (i : Fin (nx + 1)) : ℚ × ℚ :=
  F.convertW (w_in F ny nx j i).1 (w_in F ny nx j i).2

/-- `xp_inout, yp_inout = wcs_out.wcs_world2pix(xw_in, yw_in, 0)`. -/
def p_inout (F : Frames) (ny nx : ℕ) (j : Fin (ny + 1)) (i : Fin (nx + 1)) : ℚ × ℚ :=
  F.wcs_out.world2pix (w_in_conv F ny nx j i).1 (w_in_conv F ny nx j i).2

/-- C9: the corner grids place corner `(j, i)` at `(i - 0.5, j - 0.5)` and
have `nx + 1` columns and `ny + 1` rows (visible in the `Fin` domains); the
source pixel→world transform is applied to every source corner and the
destination grid is built identically; the source world coordinates are
frame-converted; and the source corners' destination-pixel positions are
the destination world→pixel transform applied to those frame-converted
coordinates. -/
theorem coordinate_mapper_pipeline (F : Frames) (ny_in nx_in ny_out nx_out : ℕ)
    (j : Fin (ny_in + 1)) (i : Fin (nx_in + 1))
    (j2 : Fin (ny_out + 1)) (i2 : Fin (nx_out + 1)) :
    xp_grid ny_in nx_in j i = (i : ℚ) - 1/2 ∧
    yp_grid ny_in nx_in j i = (j : ℚ) - 1/2 ∧
    w_in F ny_in nx_in j i = F.wcs_in.pix2world ((i : ℚ) - 1/2) ((j : ℚ) - 1/2) ∧
    w_out F ny_out nx_out j2 i2 = F.wcs_out.pix2world ((i2 : ℚ) - 1/2) ((j2 : ℚ) - 1/2) ∧
    w_in_conv F ny_in nx_in j i
      = F.convertW (F.wcs_in.pix2world ((i : ℚ) - 1/2) ((j : ℚ) - 1/2)).1
                   (F.wcs_in.pix2world ((i : ℚ) - 1/2) ((j : ℚ) - 1/2)).2 ∧
    p_inout F ny_in nx_in j i
      = F.wcs_out.world2pix
          (F.convertW (F.wcs_in.pix2world ((i : ℚ) - 1/2) ((j : ℚ) - 1/2)).1
                      (F.wcs_in.pix2world ((i : ℚ) - 1/2) ((j : ℚ) - 1/2)).2).1
          (F.convertW (F.wcs_in.pix2world ((i : ℚ) - 1/2) ((j : ℚ) - 1/2)).1
                      (F.wcs_in.pix2world ((i : ℚ) - 1/2) ((j : ℚ) - 1/2)).2).2 :=
  ⟨rfl, rfl, rfl, rfl, rfl, rfl⟩

/-!
## Bounding-box rounding (C4)
-/

/-- The bounding-box minimum as C4 words it: `floor(min + 0.5)`,
i.e. nearest-integer rounding with ties rounding up. -/
def xminClaim (P : Params) (j i : ℕ) : ℤ :=
  ⌊min4 (P.xp_inout j i) (P.xp_inout j (i+1))
        (P.xp_inout (j+1) (i+1)) (P.xp_inout (j+1) i) + 1/2⌋

/-- The bounding-box maximum as C4 words it: `floor(max + 0.5)`. -/
def xmaxClaim (P : Params) (j i : ℕ) : ℤ :=
  ⌊max4 (P.xp_inout j i) (P.xp_inout j (i+1))
        (P.xp_inout (j+1) (i+1)) (P.xp_inout (j+1) i) + 1/2⌋

/-- Parameters whose projected corners sit at x = −0.6: Python's `int()`
truncation and the claimed `floor` disagree there. -/
def cornerCaseParams : Params where
  ny_in := 1
  nx_in := 1
  ny_out := 5
  nx_out := 5
  array := fun _ _ => 1
  xp_inout := fun _ _ => -3/5
  yp_inout := fun _ _ => 0
  xw_in := fun _ _ => 0
  yw_in := fun _ _ => 0
  xw_out := fun _ _ => 0
  yw_out := fun _ _ => 0
  radians := fun q => q
  compute_overlap := fun _ _ _ _ => 1

/-- C4 counterexample: with all four projected x-corners at −0.6 the code
computes `xmin = xmax = int(−0.1) = 0` (truncation toward zero) while the
claimed `floor(−0.1) = −1`; after clipping the code's box is the nonempty
column {0} — and the source pixel does contribute to destination (0, 0) —
whereas the claimed box is empty. -/
theorem bbox_rounding_cx :
    xminRaw cornerCaseParams 0 0 = 0 ∧
    xminClaim cornerCaseParams 0 0 = -1 ∧
    xminRaw cornerCaseParams 0 0 ≠ xminClaim cornerCaseParams 0 0 ∧
    xmaxRaw cornerCaseParams 0 0 = 0 ∧
    xmaxClaim cornerCaseParams 0 0 = -1 ∧
    xminC cornerCaseParams 0 0 = 0 ∧
    xmaxC cornerCaseParams 0 0 = 0 ∧
    min ((cornerCaseParams.nx_out : ℤ) - 1) (xmaxClaim cornerCaseParams 0 0)
      < max 0 (xminClaim cornerCaseParams 0 0) ∧
    (loopII cornerCaseParams 0 0 ⟨fun _ _ => 0, fun _ _ => 0⟩).weight 0 0 = 1 := by
  have e1 : xminRaw cornerCaseParams 0 0 = 0 := by
    show truncQ (min4 (-3/5 : ℚ) (-3/5) (-3/5) (-3/5) + 1/2) = 0
    norm_num [min4, truncQ]
  have e2 : xminClaim cornerCaseParams 0 0 = -1 := by
    show ⌊min4 (-3/5 : ℚ) (-3/5) (-3/5) (-3/5) + 1/2⌋ = -1
    norm_num [min4]
  have e4 : xmaxRaw cornerCaseParams 0 0 = 0 := by
    show truncQ (max4 (-3/5 : ℚ) (-3/5) (-3/5) (-3/5) + 1/2) = 0
    norm_num [max4, truncQ]
  have e5 : xmaxClaim cornerCaseParams 0 0 = -1 := by
    show ⌊max4 (-3/5 : ℚ) (-3/5) (-3/5) (-3/5) + 1/2⌋ = -1
    norm_num [max4]
  have e6 : xminC cornerCaseParams 0 0 = 0 := by
    unfold xminC
    rw [e1]
    rfl
  have e7 : xmaxC cornerCaseParams 0 0 = 0 := by
    unfold xmaxC
    rw [e4]
    simp only [cornerCaseParams]
    omega
  have hy1 : yminRaw cornerCaseParams 0 0 = 0 := by
    show truncQ (min4 (0 : ℚ) 0 0 0 + 1/2) = 0
    norm_num [min4, truncQ]
  have hy2 : ymaxRaw cornerCaseParams 0 0 = 0 := by
    show truncQ (max4 (0 : ℚ) 0 0 0 + 1/2) = 0
    norm_num [max4, truncQ]
  have hy3 : yminC cornerCaseParams 0 0 = 0 := by
    unfold yminC
    rw [hy1]
    rfl
  have hy4 : ymaxC cornerCaseParams 0 0 = 0 := by
    unfold ymaxC
    rw [hy2]
    simp only [cornerCaseParams]
    omega
  have hbox : inClipBox cornerCaseParams 0 0 0 0 := by
    unfold inClipBox
    rw [e6, e7, hy3, hy4]
    omega
  have hfr : fraction cornerCaseParams 0 0 0 0 = 1 := by
    unfold fraction overlapSD overlapDD
    show (1 : ℚ) / 1 = 1
    norm_num
  obtain ⟨_, hw⟩ := loopII_char cornerCaseParams 0 0 0 0 ⟨fun _ _ => 0, fun _ _ => 0⟩
  refine ⟨e1, e2, by rw [e1, e2]; decide, e4, e5, e6, e7, ?_, ?_⟩
  · rw [e2, e5]
    simp only [cornerCaseParams]
    omega
  · rw [hw, if_pos hbox, hfr]
    show (0 : ℚ) + 1 = 1
    norm_num

/-- C4 (amended): the candidate box is computed with Python `int()`
truncation toward zero of `min + 0.5` and `max + 0.5` — which agrees with
the claimed `floor` (nearest integer, ties up) whenever the rounded
quantity is nonnegative — then clipped to the destination index ranges;
and a source pixel whose clipped box is empty contributes nothing to any
destination pixel. -/
theorem bbox_truncation_and_skip (P : Params) (j i : ℕ) (acc : Acc) (a b : ℤ) (q : ℚ)
    (hq : 0 ≤ q)
    (hempty : xmaxC P j i < xminC P j i ∨ ymaxC P j i < yminC P j i) :
    truncQ q = ⌊q⌋ ∧
    xminRaw P j i = truncQ (min4 (P.xp_inout j i) (P.xp_inout j (i+1))
        (P.xp_inout (j+1) (i+1)) (P.xp_inout (j+1) i) + 1/2) ∧
    xmaxRaw P j i = truncQ (max4 (P.xp_inout j i) (P.xp_inout j (i+1))
        (P.xp_inout (j+1) (i+1)) (P.xp_inout (j+1) i) + 1/2) ∧
    xminC P j i = max 0 (xminRaw P j i) ∧
    xmaxC P j i = min ((P.nx_out : ℤ) - 1) (xmaxRaw P j i) ∧
    yminC P j i = max 0 (yminRaw P j i) ∧
    ymaxC P j i = min ((P.ny_out : ℤ) - 1) (ymaxRaw P j i) ∧
    (loopII P j i acc).flux a b = acc.flux a b ∧
    (loopII P j i acc).weight a b = acc.weight a b := by
  have hskip : ¬ inClipBox P j i a b := by
    unfold inClipBox
    intro hc
    rcases hempty with h | h <;> omega
  obtain ⟨hf, hw⟩ := loopII_char P j i a b acc
  refine ⟨?_, rfl, rfl, rfl, rfl, rfl, rfl, ?_, ?_⟩
  · unfold truncQ
    rw [if_pos hq]
  · rw [hf, if_neg hskip, add_zero]
  · rw [hw, if_neg hskip, add_zero]

/-- Parameters whose projected corners lie far right of the destination
grid, so the clipped box is empty. -/
def emptyBoxParams : Params where
  ny_in := 1
  nx_in := 1
  ny_out := 5
  nx_out := 5
  array := fun _ _ => 1
  xp_inout := fun _ _ => 51/5
  yp_inout := fun _ _ => 0
  xw_in := fun _ _ => 0
  yw_in := fun _ _ => 0
  xw_out := fun _ _ => 0
  yw_out := fun _ _ => 0
  radians := fun q => q
  compute_overlap := fun _ _ _ _ => 1

/-- Witness for the amended C4: an empty clipped box skips the pixel. -/
theorem bbox_truncation_and_skip_witness :
    (0 ≤ (1/2 : ℚ) ∧
     (xmaxC emptyBoxParams 0 0 < xminC emptyBoxParams 0 0 ∨
      ymaxC emptyBoxParams 0 0 < yminC emptyBoxParams 0 0)) ∧
    (truncQ (1/2) = ⌊(1/2 : ℚ)⌋ ∧
     xminRaw emptyBoxParams 0 0
       = truncQ (min4 (emptyBoxParams.xp_inout 0 0) (emptyBoxParams.xp_inout 0 1)
           (emptyBoxParams.xp_inout 1 1) (emptyBoxParams.xp_inout 1 0) + 1/2) ∧
     xmaxRaw emptyBoxParams 0 0
       = truncQ (max4 (emptyBoxParams.xp_inout 0 0) (emptyBoxParams.xp_inout 0 1)
           (emptyBoxParams.xp_inout 1 1) (emptyBoxParams.xp_inout 1 0) + 1/2) ∧
     xminC emptyBoxParams 0 0 = max 0 (xminRaw emptyBoxParams 0 0) ∧
     xmaxC emptyBoxParams 0 0 = min ((emptyBoxParams.nx_out : ℤ) - 1) (xmaxRaw emptyBoxParams 0 0) ∧
     yminC emptyBoxParams 0 0 = max 0 (yminRaw emptyBoxParams 0 0) ∧
     ymaxC emptyBoxParams 0 0 = min ((emptyBoxParams.ny_out : ℤ) - 1) (ymaxRaw emptyBoxParams 0 0) ∧
     (loopII emptyBoxParams 0 0 ⟨fun _ _ => 0, fun _ _ => 0⟩).flux 0 0
       = (⟨fun _ _ => 0, fun _ _ => 0⟩ : Acc).flux 0 0 ∧
     (loopII emptyBoxParams 0 0 ⟨fun _ _ => 0, fun _ _ => 0⟩).weight 0 0
       = (⟨fun _ _ => 0, fun _ _ => 0⟩ : Acc).weight 0 0) :=
  have hempty : xmaxC emptyBoxParams 0 0 < xminC emptyBoxParams 0 0 ∨
      ymaxC emptyBoxParams 0 0 < yminC emptyBoxParams 0 0 := by
    left
    have h1 : xminRaw emptyBoxParams 0 0 = 10 := by
      show truncQ (min4 (51/5 : ℚ) (51/5) (51/5) (51/5) + 1/2) = 10
      norm_num [min4, truncQ]
    have h2 : xmaxRaw emptyBoxParams 0 0 = 10 := by
      show truncQ (max4 (51/5 : ℚ) (51/5) (51/5) (51/5) + 1/2) = 10
      norm_num [max4, truncQ]
    show min ((emptyBoxParams.nx_out : ℤ) - 1) (xmaxRaw emptyBoxParams 0 0)
      < max 0 (xminRaw emptyBoxParams 0 0)
    rw [h1, h2]
    simp only [emptyBoxParams]
    omega
  ⟨⟨by norm_num, hempty⟩,
   bbox_truncation_and_skip emptyBoxParams 0 0 ⟨fun _ _ => 0, fun _ _ => 0⟩ 0 0 (1/2)
     (by norm_num) hempty⟩

end Reproject
